import Mathlib

/-!
Shallow embedding of `torch/csrc/jit/passes/onnx/preprocess_for_onnx.cpp`.

The JIT IR is modelled as a flat block: a `Graph` holds an ordered list of
nodes, the value ids of the graph inputs (produced by the implicit Param
node), the value ids consumed by the implicit Return node, a type map for
values, and a fresh-id counter.  None of the node kinds rewritten by this
file (`aten::split*`, `aten::add`, `aten::index_put_`, `prim::ListUnpack`)
carries nested blocks, so the recursion of each pass into child blocks is
the identity on the graphs modelled here and the embedding works over a
single root block.

Out-of-range accesses such as `node->input(i)` with `i >= inputs().size()`
throw in the C++ IR (`std::vector::at`), as do the internal assertions of
`Node::replaceAllUsesWith`; the embedding makes the affected passes return
`Option Graph`, with `none` standing for that abort.
-/

namespace PreprocessOnnx

/-- Scalar (dtype) kinds of tensors; only `Bool` is inspected by the passes. -/
inductive ScalarType where
  | Bool
  | Long
  | Float
  | Byte
deriving DecidableEq, Repr

/-- The type algebra of JIT values, restricted to the variants the passes
inspect: tensor types with optional scalar kind and optional rank, list
types, and the number types. -/
inductive JitType where
  | TensorType (scalar : Option ScalarType) (rank : Option Nat)
  | ListType (elem : JitType)
  | IntType
  | FloatType
  | BoolType
  | NoneType
deriving DecidableEq, Repr

/-- `type->cast<ListType>()`, returning the element type on success. -/
def JitType.castList : JitType → Option JitType
  | .ListType e => some e
  | _ => none

/-- `type->cast<TensorType>()`, returning `(scalarType(), sizes().size())`. -/
def JitType.castTensor : JitType → Option (Option ScalarType × Option Nat)
  | .TensorType s r => some (s, r)
  | _ => none

/-- `elem->cast<IntType>()` used as a boolean. -/
def JitType.isInt : JitType → Bool
  | .IntType => true
  | _ => false

/-- Modelled from the spec: `TensorType::fromNumberType` is not part of the
source file; §4.2 of the spec describes its result on `Int` as "the tensor
type derived from the integer element type (a 1-D integer tensor)". -/
def fromNumberType (t : JitType) : JitType :=
  match t with
  | .IntType => .TensorType (some ScalarType.Long) (some 1)
  | .FloatType => .TensorType (some ScalarType.Float) (some 1)
  | .BoolType => .TensorType (some ScalarType.Bool) (some 1)
  | _ => .TensorType none none

/-- Interned node kinds referenced by the passes.  `usplit`, `uchunk`
abbreviate `aten::unsafe_split`, `aten::unsafe_split_with_sizes` and
`aten::unsafe_chunk`; `other` stands for any kind the passes treat as
opaque (`aten::size`, `aten::slice`, ...). -/
inductive NodeKind where
  | aten_split
  | aten_split_with_sizes
  | aten_usplit
  | aten_usplit_with_sizes
  | aten_unbind
  | aten_uchunk
  | aten_where
  | aten_add
  | aten_index_put_
  | aten_masked_fill
  | aten_masked_scatter
  | prim_ListUnpack
  | prim_ListConstruct
  | prim_Param
  | onnx_Concat
  | onnx_Constant
  | onnx_Gather
  | other (tag : Nat)
deriving DecidableEq, Repr

/-- Attribute values set by the passes: integers (`i_`), and scalar integer
tensors (`t_` with `at::scalar_to_tensor(at::Scalar(int(i)))`), the latter
represented by the integer they hold. -/
inductive AttrValue where
  | ival (n : Int)
  | tval (n : Int)
deriving DecidableEq, Repr

/-- A node: identity, kind, input value ids, output value ids, attributes. -/
structure Node where
  id : Nat
  kind : NodeKind
  inputs : List Nat
  outputs : List Nat
  attrs : List (String × AttrValue) := []
deriving DecidableEq, Repr

/-- A use of a value: the consuming node (`none` for the implicit Return
node) and the input offset at which it is consumed. -/
structure Use where
  user : Option Node
  offset : Nat
deriving DecidableEq, Repr

/-- A graph: one (root) block of nodes, the graph-input value ids, the
returned value ids, the value-type map, and the next fresh id (used for
both new value ids and new node ids). -/
structure Graph where
  inputs : List Nat
  nodes : List Node
  rets : List Nat
  types : List (Nat × JitType)
  fresh : Nat
deriving DecidableEq, Repr

/-- Fresh values start with the unspecified tensor type (`TensorType::get()`). -/
def defaultType : JitType := .TensorType none none

def lookupType : List (Nat × JitType) → Nat → Option JitType
  | [], _ => none
  | (w, t) :: rest, v => if w = v then some t else lookupType rest v

/-- `value->type()`. -/
def Graph.typeOf (g : Graph) (v : Nat) : JitType :=
  (lookupType g.types v).getD defaultType

def setTypes : List (Nat × JitType) → Nat → JitType → List (Nat × JitType)
  | [], v, t => [(v, t)]
  | (w, s) :: rest, v, t =>
    if w = v then (v, t) :: rest else (w, s) :: setTypes rest v t

/-- `value->setType(t)` (also the effect of `copyMetadata` on the type). -/
def Graph.setType (g : Graph) (v : Nat) (t : JitType) : Graph :=
  { g with types := setTypes g.types v t }

def removeTypes (ts : List (Nat × JitType)) (vs : List Nat) : List (Nat × JitType) :=
  ts.filter (fun p => decide (p.1 ∉ vs))

def findNodeL : List Node → Nat → Option Node
  | [], _ => none
  | n :: rest, nid => if n.id = nid then some n else findNodeL rest nid

/-- Look a node up by identity. -/
def Graph.findNode (g : Graph) (nid : Nat) : Option Node :=
  findNodeL g.nodes nid

def producerOfL : List Node → Nat → Option Node
  | [], _ => none
  | n :: rest, v => if v ∈ n.outputs then some n else producerOfL rest v

/-- `value->node()`: the producing node, `none` when the value is a graph
input (whose producer is the implicit Param node). -/
def Graph.producerOf (g : Graph) (v : Nat) : Option Node :=
  producerOfL g.nodes v

/-- `value->node()->kind()`, with the Param node for graph inputs. -/
def Graph.producerKind (g : Graph) (v : Nat) : NodeKind :=
  match g.producerOf v with
  | some n => n.kind
  | none => .prim_Param

/-- `value->node()->inputs()`; the Param node has no inputs. -/
def Graph.producerInputs (g : Graph) (v : Nat) : List Nat :=
  match g.producerOf v with
  | some n => n.inputs
  | none => []

def positionsFrom : List Nat → Nat → Nat → List Nat
  | [], _, _ => []
  | x :: rest, v, k =>
    if x = v then k :: positionsFrom rest v (k + 1) else positionsFrom rest v (k + 1)

/-- The offsets at which `v` occurs in an input list. -/
def positionsOf (l : List Nat) (v : Nat) : List Nat :=
  positionsFrom l v 0

def nodeUses (n : Node) (v : Nat) : List Use :=
  (positionsOf n.inputs v).map (fun i => { user := some n, offset := i })

def usesIn : List Node → Nat → List Use
  | [], _ => []
  | n :: rest, v => nodeUses n v ++ usesIn rest v

/-- `value->uses()`: all uses in block nodes, then the Return-node uses. -/
def Graph.usesOf (g : Graph) (v : Nat) : List Use :=
  usesIn g.nodes v ++ (positionsOf g.rets v).map (fun i => { user := none, offset := i })

/-- The substitution underlying `Value::replaceAllUsesWith`. -/
def substValue (a b v : Nat) : Nat := if v = a then b else v

def Node.substInputs (n : Node) (a b : Nat) : Node :=
  { n with inputs := n.inputs.map (substValue a b) }

/-- `oldValue->replaceAllUsesWith(newValue)`: rewrite every input edge and
every Return-node edge carrying `a` to carry `b`. -/
def Graph.replaceValue (g : Graph) (a b : Nat) : Graph :=
  { g with
    nodes := g.nodes.map (fun m => m.substInputs a b),
    rets := g.rets.map (substValue a b) }

def updateFn (nid : Nat) (f : Node → Node) (m : Node) : Node :=
  if m.id = nid then f m else m

/-- Mutate the node with identity `nid` in place. -/
def Graph.updateNode (g : Graph) (nid : Nat) (f : Node → Node) : Graph :=
  { g with nodes := g.nodes.map (updateFn nid f) }

def insertBeforeL : List Node → Nat → Node → List Node
  | [], _, m => [m]
  | x :: rest, nid, m =>
    if x.id = nid then m :: x :: rest else x :: insertBeforeL rest nid m

/-- `newNode->insertBefore(node)`. -/
def Graph.insertBefore (g : Graph) (nid : Nat) (m : Node) : Graph :=
  { g with nodes := insertBeforeL g.nodes nid m }

def removeNodeL : List Node → Nat → List Node
  | [], _ => []
  | x :: rest, nid =>
    if x.id = nid then removeNodeL rest nid else x :: removeNodeL rest nid

/-- `node->destroy()` (after its inputs were cleared): drop the node and the
type entries of its (now unused) output values. -/
def Graph.destroyNode (g : Graph) (n : Node) : Graph :=
  { g with
    nodes := removeNodeL g.nodes n.id,
    types := removeTypes g.types n.outputs }

def setAttrL : List (String × AttrValue) → String → AttrValue → List (String × AttrValue)
  | [], k, v => [(k, v)]
  | (k0, v0) :: rest, k, v =>
    if k0 = k then (k, v) :: rest else (k0, v0) :: setAttrL rest k v

/-- `node->i_(name, i)`. -/
def Node.setIntAttr (n : Node) (k : String) (i : Int) : Node :=
  { n with attrs := setAttrL n.attrs k (AttrValue.ival i) }

/-! ## Pass 1: fuse a list producer with its sole `prim::ListUnpack` consumer -/

/-- The trigger kinds of the `switch` in the block-level `FuseWithListUnpack`. -/
def fuseTriggerKinds : List NodeKind :=
  [.aten_split, .aten_split_with_sizes, .aten_usplit, .aten_usplit_with_sizes,
   .aten_unbind, .aten_uchunk, .aten_where]

/-- `FindFusibleListUnpack`: `n` must have exactly one output, that output
exactly one use, and the use's consumer must be a `prim::ListUnpack`. -/
def FindFusibleListUnpack (g : Graph) (n : Node) : Option Node :=
  match n.outputs with
  | [v] =>
    match g.usesOf v with
    | [u] =>
      match u.user with
      | some m => if m.kind = NodeKind.prim_ListUnpack then some m else none
      | none => none
    | _ => none
  | _ => none

/-- The loop `for i in 0..k: addOutput(); copyMetadata(U->output(i))`: each
round appends one fresh output value to node `nid` and copies the type of
the corresponding source value. -/
def addOutputsFrom : Graph → Nat → List Nat → Graph
  | g, _, [] => g
  | g, nid, s :: rest =>
    let v := g.fresh
    let t := g.typeOf s
    let g1 : Graph :=
      { g.updateNode nid (fun m => { m with outputs := m.outputs ++ [v] }) with
        fresh := g.fresh + 1 }
    addOutputsFrom (g1.setType v t) nid rest

/-- `U->replaceAllUsesWith(n)`: positional value replacement. -/
def replacePairs : Graph → List (Nat × Nat) → Graph
  | g, [] => g
  | g, (a, b) :: rest => replacePairs (g.replaceValue a b) rest

/-- The node-level `FuseWithListUnpack(Node* n)`. -/
def FuseWithListUnpackNode (g : Graph) (nid : Nat) : Graph :=
  match g.findNode nid with
  | none => g
  | some n =>
    match FindFusibleListUnpack g n with
    | none => g
    | some u =>
      let k := u.outputs.length
      let g1 := g.updateNode nid (fun m => m.setIntAttr "_outputs" (Int.ofNat k))
      let g2 := addOutputsFrom g1 nid u.outputs
      let g3 := g2.updateNode u.id (fun m => { m with inputs := [] })
      let origOut := match n.outputs with | w :: _ => w | [] => 0
      let g4 := g3.updateNode nid (fun m => { m with outputs := m.outputs.drop 1 })
      let g5 : Graph := { g4 with types := removeTypes g4.types [origOut] }
      match g5.findNode nid with
      | none => g5
      | some n2 => replacePairs g5 (u.outputs.zip n2.outputs)

/-- One iteration of the block-level `FuseWithListUnpack(Block* b)`:
dispatch on the trigger-kind `switch`. -/
def FuseWithListUnpackStep (g : Graph) (nid : Nat) : Graph :=
  match g.findNode nid with
  | some n => if n.kind ∈ fuseTriggerKinds then FuseWithListUnpackNode g nid else g
  | none => g

def Graph.nodeIds (g : Graph) : List Nat := g.nodes.map (fun n => n.id)

/-- Forward walk over the snapshot of node identities (the C++ iterator
visits each node of the block once; nodes inserted before the cursor are
not revisited). -/
def runSteps (step : Graph → Nat → Graph) : List Nat → Graph → Graph
  | [], g => g
  | nid :: rest, g => runSteps step rest (step g nid)

def FuseWithListUnpackBlock (g : Graph) : Graph :=
  runSteps FuseWithListUnpackStep g.nodeIds g

/-! ## Pass 2: replace `aten::add` of two int lists by `onnx::Concat` -/

/-- One iteration of `ReplaceAddWithConcat`; `none` models the abort of an
out-of-range `input(i)` access or of the size assertion inside
`Node::replaceAllUsesWith`. -/
def ReplaceAddWithConcatStep (g : Graph) (nid : Nat) : Option Graph :=
  match g.findNode nid with
  | none => some g
  | some n =>
    if n.kind = NodeKind.aten_add then
      match n.inputs.get? 0, n.inputs.get? 1 with
      | some i0, some i1 =>
        match (g.typeOf i0).castList, (g.typeOf i1).castList with
        | some elem, some _ =>
          if elem.isInt then
            let cnode : Node :=
              { id := g.fresh, kind := NodeKind.onnx_Concat,
                inputs := [i0, i1], outputs := [g.fresh + 1],
                attrs := [("axis", AttrValue.ival 0)] }
            let g1 : Graph := { g.insertBefore nid cnode with fresh := g.fresh + 2 }
            let g2 := g1.setType (g.fresh + 1) (fromNumberType elem)
            match n.outputs with
            | [o] =>
              let g3 := g2.replaceValue o (g.fresh + 1)
              let g4 := g3.updateNode nid (fun m => { m with inputs := [] })
              some (g4.destroyNode n)
            | _ => none
          else some g
        | _, _ => some g
      | _, _ => none
    else some g

def runStepsO (step : Graph → Nat → Option Graph) : List Nat → Graph → Option Graph
  | [], g => some g
  | nid :: rest, g =>
    match step g nid with
    | none => none
    | some g1 => runStepsO step rest g1

def ReplaceAddWithConcat (g : Graph) : Option Graph :=
  runStepsO ReplaceAddWithConcatStep g.nodeIds g

/-! ## Pass 3: replace `aten::index_put_` by masked fill / masked scatter -/

/-- `!n` on a C++ `size_t`. -/
def cppNot (n : Nat) : Bool := n == 0

/-- The implicit bool-to-int promotion in `bool == 1`. -/
def cppBoolToInt (b : Bool) : Nat := if b then 1 else 0

/-- The guard expression `(!lc_node->inputs().size()) == 1` of the source. -/
def indexPutGuard (sz : Nat) : Bool := cppBoolToInt (cppNot sz) == 1

/-- The mask test: negation of
`!(mask_tensor) || !scalarType().has_value() || scalarType() != Bool`. -/
def maskIsBool (t : JitType) : Bool :=
  match t.castTensor with
  | some (some ScalarType.Bool, _) => true
  | _ => false

/-- One iteration of `ReplaceIndexPutWithMaskedScatter`. -/
def ReplaceIndexPutStep (g : Graph) (nid : Nat) : Option Graph :=
  match g.findNode nid with
  | none => some g
  | some n =>
    if n.kind = NodeKind.aten_index_put_ then
      match n.inputs.get? 1 with
      | none => none
      | some idx =>
        let lcInputs := g.producerInputs idx
        match lcInputs.get? 0 with
        | none => none
        | some mask =>
          if !maskIsBool (g.typeOf mask) then some g
          else if indexPutGuard lcInputs.length then some g
          else
            match n.inputs.get? 2 with
            | none => none
            | some val =>
              match (g.typeOf val).castTensor with
              | some (_, some r) =>
                let mkind := if r = 0 then NodeKind.aten_masked_fill
                             else NodeKind.aten_masked_scatter
                match n.inputs.get? 0 with
                | none => none
                | some dest =>
                  let mnode : Node :=
                    { id := g.fresh, kind := mkind,
                      inputs := [dest, mask, val], outputs := [g.fresh + 1],
                      attrs := [] }
                  let g1 : Graph := { g.insertBefore nid mnode with fresh := g.fresh + 2 }
                  match n.outputs with
                  | [o] =>
                    let g2 := g1.replaceValue o (g.fresh + 1)
                    let g3 := g2.updateNode nid (fun m => { m with inputs := [] })
                    some (g3.destroyNode n)
                  | _ => none
              | _ => some g
    else some g

/-- The same iteration with the dead guard of line 209 removed; used to
state that the guard has no effect. -/
def ReplaceIndexPutStepNoGuard (g : Graph) (nid : Nat) : Option Graph :=
  match g.findNode nid with
  | none => some g
  | some n =>
    if n.kind = NodeKind.aten_index_put_ then
      match n.inputs.get? 1 with
      | none => none
      | some idx =>
        let lcInputs := g.producerInputs idx
        match lcInputs.get? 0 with
        | none => none
        | some mask =>
          if !maskIsBool (g.typeOf mask) then some g
          else
            match n.inputs.get? 2 with
            | none => none
            | some val =>
              match (g.typeOf val).castTensor with
              | some (_, some r) =>
                let mkind := if r = 0 then NodeKind.aten_masked_fill
                             else NodeKind.aten_masked_scatter
                match n.inputs.get? 0 with
                | none => none
                | some dest =>
                  let mnode : Node :=
                    { id := g.fresh, kind := mkind,
                      inputs := [dest, mask, val], outputs := [g.fresh + 1],
                      attrs := [] }
                  let g1 : Graph := { g.insertBefore nid mnode with fresh := g.fresh + 2 }
                  match n.outputs with
                  | [o] =>
                    let g2 := g1.replaceValue o (g.fresh + 1)
                    let g3 := g2.updateNode nid (fun m => { m with inputs := [] })
                    some (g3.destroyNode n)
                  | _ => none
              | _ => some g
    else some g

def ReplaceIndexPutWithMaskedScatter (g : Graph) : Option Graph :=
  runStepsO ReplaceIndexPutStep g.nodeIds g

/-! ## Pass 4: expand `prim::ListUnpack` of an opaque int list into gathers -/

/-- The condition of the inner `if` of `fuseListAndListUnpack`, evaluated
anew for every output index. -/
def listUnpackGuard (g : Graph) (u : Node) : Bool :=
  u.inputs.length == 1 &&
  (match u.inputs.get? 0 with
   | some v =>
     !(g.producerKind v == NodeKind.prim_ListConstruct) &&
     (match (g.typeOf v).castList with
      | some elem => elem.isInt
      | none => false)
   | none => false)

/-- The loop over the output indices of the `prim::ListUnpack` node: for
index `i`, insert an `onnx::Constant` holding the scalar tensor `i` and an
`onnx::Gather` on `(input, constant)` before the node, then redirect the
uses of the `i`-th output to the gather output. -/
def fuseListUnpackLoop : Graph → Nat → List (Nat × Nat) → Graph
  | g, _, [] => g
  | g, nid, (i, output) :: rest =>
    let g' :=
      match g.findNode nid with
      | none => g
      | some u =>
        if listUnpackGuard g u then
          match u.inputs.get? 0 with
          | some v =>
            let cNode : Node :=
              { id := g.fresh, kind := NodeKind.onnx_Constant,
                inputs := [], outputs := [g.fresh + 1],
                attrs := [("value", AttrValue.tval (Int.ofNat i))] }
            let g1 : Graph := { g.insertBefore nid cNode with fresh := g.fresh + 2 }
            let gNode : Node :=
              { id := g1.fresh, kind := NodeKind.onnx_Gather,
                inputs := [v, g.fresh + 1], outputs := [g1.fresh + 1],
                attrs := [] }
            let g2 : Graph := { g1.insertBefore nid gNode with fresh := g1.fresh + 2 }
            g2.replaceValue output (g1.fresh + 1)
          | none => g
        else g
    fuseListUnpackLoop g' nid rest

/-- One iteration of `fuseListAndListUnpack`. -/
def fuseListUnpackStep (g : Graph) (nid : Nat) : Graph :=
  match g.findNode nid with
  | some n =>
    if n.kind = NodeKind.prim_ListUnpack then
      fuseListUnpackLoop g nid n.outputs.enum
    else g
  | none => g

def fuseListAndListUnpack (g : Graph) : Graph :=
  runSteps fuseListUnpackStep g.nodeIds g

/-- `PreprocessForONNX`: the four passes in their fixed order. -/
def PreprocessForONNX (g : Graph) : Option Graph :=
  match ReplaceAddWithConcat (FuseWithListUnpackBlock g) with
  | none => none
  | some g2 =>
    match ReplaceIndexPutWithMaskedScatter g2 with
    | none => none
    | some g3 => some (fuseListAndListUnpack g3)

/-! ## Derived notions used by the theorems -/

/-- Simultaneous first-match substitution by a pair list; the net effect of
the sequential `replaceAllUsesWith` calls of a whole rewrite. -/
def substL : List (Nat × Nat) → Nat → Nat
  | [], v => v
  | (a, b) :: rest, v => if v = a then b else substL rest v

def Node.substInputsL (n : Node) (ps : List (Nat × Nat)) : Node :=
  { n with inputs := n.inputs.map (substL ps) }

/-- The `onnx::Constant` / `onnx::Gather` pairs that pass 4 inserts for the
enumerated outputs of a `prim::ListUnpack` with input `v`, starting at
fresh id `fr`. -/
def gatherGadgets (v : Nat) : Nat → List (Nat × Nat) → List Node
  | _, [] => []
  | fr, (i, _) :: rest =>
    { id := fr, kind := NodeKind.onnx_Constant, inputs := [], outputs := [fr + 1],
      attrs := [("value", AttrValue.tval (Int.ofNat i))] } ::
    { id := fr + 2, kind := NodeKind.onnx_Gather, inputs := [v, fr + 1],
      outputs := [fr + 3], attrs := [] } ::
    gatherGadgets v (fr + 4) rest

/-- The value substitution induced by pass 4: the `i`-th unpack output goes
to the corresponding gather output. -/
def gatherPairs : Nat → List (Nat × Nat) → List (Nat × Nat)
  | _, [] => []
  | fr, (_, o) :: rest => (o, fr + 3) :: gatherPairs (fr + 4) rest

/-- No per-node rewrite step of any of the four passes changes the graph:
the state in which `PreprocessForONNX` acts as the identity. -/
def quiescent (g : Graph) : Bool :=
  g.nodeIds.all (fun nid =>
    decide (FuseWithListUnpackStep g nid = g) &&
    decide (ReplaceAddWithConcatStep g nid = some g) &&
    decide (ReplaceIndexPutStep g nid = some g) &&
    decide (fuseListUnpackStep g nid = g))

/-! ## Concrete graphs for counterexamples and witnesses -/

/-- An opaque shape query producing an `int[]` (e.g. `aten::size`). -/
def sizeN : Node := { id := 10, kind := .other 0, inputs := [0], outputs := [1] }

/-- `prim::ListUnpack` of the opaque int list: the trigger of pass 4. -/
def unpack2N : Node := { id := 11, kind := .prim_ListUnpack, inputs := [1], outputs := [2, 3] }

/-- `%2, %3 = prim::ListUnpack(aten::size(%0))`; pass 4 fires on it and
leaves its trigger in place. -/
def exUnpackG : Graph :=
  { inputs := [0],
    nodes := [sizeN, unpack2N],
    rets := [2, 3],
    types := [(1, .ListType .IntType)],
    fresh := 12 }

/-- The result of the list-index-expansion pass on `exUnpackG`: one
`onnx::Constant` / `onnx::Gather` pair per unpack output, inserted before
the `ListUnpack`, which itself stays behind with its outputs unused. -/
def exUnpackH : Graph :=
  { inputs := [0],
    nodes := [sizeN,
              { id := 12, kind := .onnx_Constant, inputs := [], outputs := [13],
                attrs := [("value", AttrValue.tval 0)] },
              { id := 14, kind := .onnx_Gather, inputs := [1, 13], outputs := [15] },
              { id := 16, kind := .onnx_Constant, inputs := [], outputs := [17],
                attrs := [("value", AttrValue.tval 1)] },
              { id := 18, kind := .onnx_Gather, inputs := [1, 17], outputs := [19] },
              unpack2N],
    rets := [15, 19],
    types := [(1, .ListType .IntType)],
    fresh := 20 }

/-- `aten::add` of two `int[]` values. -/
def addN : Node := { id := 0, kind := .aten_add, inputs := [1, 2], outputs := [3] }

/-- `%3 = aten::add(%1, %2)` on two int lists: the trigger of pass 2. -/
def exAddG : Graph :=
  { inputs := [1, 2],
    nodes := [addN],
    rets := [3],
    types := [(1, .ListType .IntType), (2, .ListType .IntType)],
    fresh := 4 }

/-- The result of `PreprocessForONNX` on `exAddG`: the add became
`onnx::Concat[axis=0]`. -/
def exAddH : Graph :=
  { inputs := [1, 2],
    nodes := [{ id := 4, kind := .onnx_Concat, inputs := [1, 2], outputs := [5],
                attrs := [("axis", AttrValue.ival 0)] }],
    rets := [5],
    types := [(1, .ListType .IntType), (2, .ListType .IntType),
              (5, .TensorType (some .Long) (some 1))],
    fresh := 6 }

/-- `aten::add` whose first input is an int list and whose second is a
float list. -/
def exMixG : Graph :=
  { inputs := [1, 2],
    nodes := [addN],
    rets := [3],
    types := [(1, .ListType .IntType), (2, .ListType .FloatType)],
    fresh := 4 }

/-- Pass 2 still rewrites `exMixG` (only input 0's element type is tested). -/
def exMixH : Graph :=
  { inputs := [1, 2],
    nodes := [{ id := 4, kind := .onnx_Concat, inputs := [1, 2], outputs := [5],
                attrs := [("axis", AttrValue.ival 0)] }],
    rets := [5],
    types := [(1, .ListType .IntType), (2, .ListType .FloatType),
              (5, .TensorType (some .Long) (some 1))],
    fresh := 6 }

/-- `aten::add` of two float lists. -/
def exFloatG : Graph :=
  { inputs := [1, 2],
    nodes := [addN],
    rets := [3],
    types := [(1, .ListType .FloatType), (2, .ListType .FloatType)],
    fresh := 4 }

/-- `aten::split_with_sizes` producing a tensor list. -/
def splitN : Node := { id := 20, kind := .aten_split_with_sizes, inputs := [0], outputs := [1] }

/-- `prim::ListUnpack` with three outputs, sole consumer of the split. -/
def unpack3N : Node := { id := 21, kind := .prim_ListUnpack, inputs := [1], outputs := [2, 3, 4] }

/-- Scenario S1: a fusible `split_with_sizes` + `ListUnpack`. -/
def exSplitG : Graph :=
  { inputs := [0],
    nodes := [splitN, unpack3N],
    rets := [2, 3, 4],
    types := [(1, .ListType (.TensorType none none)),
              (2, .TensorType (some .Float) (some 3)),
              (3, .TensorType (some .Float) (some 3)),
              (4, .TensorType (some .Float) (some 3))],
    fresh := 30 }

/-- The result of fusing `exSplitG`: the split carries `_outputs = 3` and
the three fresh outputs 30, 31, 32 with the unpack outputs' types; the
`ListUnpack` remains with cleared inputs. -/
def exSplitH : Graph :=
  { inputs := [0],
    nodes := [{ id := 20, kind := .aten_split_with_sizes, inputs := [0],
                outputs := [30, 31, 32], attrs := [("_outputs", AttrValue.ival 3)] },
              { id := 21, kind := .prim_ListUnpack, inputs := [], outputs := [2, 3, 4] }],
    rets := [30, 31, 32],
    types := [(2, .TensorType (some .Float) (some 3)),
              (3, .TensorType (some .Float) (some 3)),
              (4, .TensorType (some .Float) (some 3)),
              (30, .TensorType (some .Float) (some 3)),
              (31, .TensorType (some .Float) (some 3)),
              (32, .TensorType (some .Float) (some 3))],
    fresh := 33 }

/-- A consumer node making the split output multiply used. -/
def userN : Node := { id := 22, kind := .other 1, inputs := [1], outputs := [5] }

/-- Scenario S6: the split output has two uses, so the split is not fusible. -/
def exSplitMultiG : Graph :=
  { inputs := [0],
    nodes := [splitN, unpack3N, userN],
    rets := [2, 3, 4, 5],
    types := [(1, .ListType (.TensorType none none))],
    fresh := 30 }

/-- `prim::ListConstruct` wrapping the mask into the indices list. -/
def lcN : Node := { id := 30, kind := .prim_ListConstruct, inputs := [5], outputs := [1] }

/-- `aten::index_put_(%0, %1, %2, %3)`. -/
def putN : Node := { id := 31, kind := .aten_index_put_, inputs := [0, 1, 2, 3], outputs := [4] }

/-- Scenario S3: boolean mask, rank-0 value; rewritten to `masked_fill`. -/
def exPutFillG : Graph :=
  { inputs := [0, 5],
    nodes := [lcN, putN],
    rets := [4],
    types := [(5, .TensorType (some .Bool) (some 3)),
              (2, .TensorType (some .Float) (some 0))],
    fresh := 40 }

/-- The result of the indexed-put pass on `exPutFillG`: the `index_put_`
node has been replaced by `aten::masked_fill(%0, %5, %2)`. -/
def exPutFillH : Graph :=
  { inputs := [0, 5],
    nodes := [lcN,
              { id := 40, kind := .aten_masked_fill, inputs := [0, 5, 2], outputs := [41] }],
    rets := [41],
    types := [(5, .TensorType (some .Bool) (some 3)),
              (2, .TensorType (some .Float) (some 0))],
    fresh := 42 }

/-- An `index_put_` whose mask has scalar kind `Long`: not rewritten. -/
def exPutIntG : Graph :=
  { inputs := [0, 5],
    nodes := [lcN, putN],
    rets := [4],
    types := [(5, .TensorType (some .Long) (some 3)),
              (2, .TensorType (some .Float) (some 0))],
    fresh := 40 }

/-- `prim::ListConstruct` with no inputs. -/
def lcEmptyN : Node := { id := 30, kind := .prim_ListConstruct, inputs := [], outputs := [1] }

/-- An `index_put_` whose indices-list producer has zero inputs: the pass's
access `lc_node->input(0)` is out of bounds. -/
def exPutCrashG : Graph :=
  { inputs := [0],
    nodes := [lcEmptyN, putN],
    rets := [4],
    types := [],
    fresh := 40 }

/-! ## Helper lemmas -/

theorem runSteps_id (step : Graph → Nat → Graph) (l : List Nat) (g : Graph)
    (h : ∀ nid ∈ l, step g nid = g) : runSteps step l g = g := by
  induction l with
  | nil => rfl
  | cons x rest ih =>
    rw [runSteps, h x (List.mem_cons_self x rest)]
    exact ih (fun nid hm => h nid (List.mem_cons_of_mem x hm))

theorem runStepsO_id (step : Graph → Nat → Option Graph) (l : List Nat) (g : Graph)
    (h : ∀ nid ∈ l, step g nid = some g) : runStepsO step l g = some g := by
  induction l with
  | nil => rfl
  | cons x rest ih =>
    rw [runStepsO, h x (List.mem_cons_self x rest)]
    exact ih (fun nid hm => h nid (List.mem_cons_of_mem x hm))

/-- A quiescent graph is a fixed point of the whole preprocessor. -/
theorem quiescent_fixed (g : Graph) (h : quiescent g = true) :
    PreprocessForONNX g = some g := by
  rw [quiescent, List.all_eq_true] at h
  have h1 : FuseWithListUnpackBlock g = g :=
    runSteps_id _ _ _ (fun nid hm => by
      have := h nid hm
      simp only [Bool.and_eq_true, decide_eq_true_eq] at this
      exact this.1.1.1)
  have h2 : ReplaceAddWithConcat g = some g :=
    runStepsO_id _ _ _ (fun nid hm => by
      have := h nid hm
      simp only [Bool.and_eq_true, decide_eq_true_eq] at this
      exact this.1.1.2)
  have h3 : ReplaceIndexPutWithMaskedScatter g = some g :=
    runStepsO_id _ _ _ (fun nid hm => by
      have := h nid hm
      simp only [Bool.and_eq_true, decide_eq_true_eq] at this
      exact this.1.2)
  have h4 : fuseListAndListUnpack g = g :=
    runSteps_id _ _ _ (fun nid hm => by
      have := h nid hm
      simp only [Bool.and_eq_true, decide_eq_true_eq] at this
      exact this.2)
  simp only [PreprocessForONNX, h1, h2, h3, h4]

/-! ## C1: idempotence of the preprocessor -/

/-- C1, counterexample: `preprocess` is not idempotent.  On the graph
`%2, %3 = prim::ListUnpack(aten::size(%0))` the list-index-expansion pass
leaves the matched `ListUnpack` and its int-list input in place, so a
second run matches again and inserts a second set of `onnx::Constant` /
`onnx::Gather` nodes: `preprocess (preprocess G) ≠ preprocess G`. -/
theorem C1_counterexample :
    (PreprocessForONNX exUnpackG).bind PreprocessForONNX ≠ PreprocessForONNX exUnpackG := by
  decide

/-- C1, amended: running `preprocess` twice yields the same graph as running
it once for every graph on which the single run leaves no rewrite trigger
(no per-node step of any pass changes `preprocess G`); in general the
list-index-expansion pass leaves its trigger pattern in place, so
idempotence fails (see the counterexample). -/
theorem C1_preprocess_idempotent_when_quiescent (g h : Graph)
    (hrun : PreprocessForONNX g = some h) (hq : quiescent h = true) :
    (PreprocessForONNX g).bind PreprocessForONNX = PreprocessForONNX g := by
  rw [hrun, Option.some_bind, quiescent_fixed h hq]

theorem C1_preprocess_idempotent_witness :
    (PreprocessForONNX exAddG).bind PreprocessForONNX = PreprocessForONNX exAddG :=
  C1_preprocess_idempotent_when_quiescent exAddG exAddH (by decide) (by decide)

/-! ## C2: the tie-break of the list-add pass -/

/-- C2: an `aten::add` node is left unchanged whenever one of its inputs
does not have list type or the element type of input 0 is not `Int`; in
particular an add of two float lists is not rewritten.  The code tests the
element type of input 0 only, so an add of an int list and a float list is
still rewritten: on `exMixG` the rewrite fires and produces `exMixH`. -/
theorem C2_add_tie_break :
    (∀ g nid n i0 i1, g.findNode nid = some n → n.kind = NodeKind.aten_add →
      n.inputs.get? 0 = some i0 → n.inputs.get? 1 = some i1 →
      ((g.typeOf i0).castList = none ∨ (g.typeOf i1).castList = none ∨
        ∃ e, (g.typeOf i0).castList = some e ∧ e.isInt = false) →
      ReplaceAddWithConcatStep g nid = some g) ∧
    ReplaceAddWithConcatStep exMixG 0 = some exMixH := by
  constructor
  · intro g nid n i0 i1 hf hk h0 h1 hcase
    simp only [ReplaceAddWithConcatStep, hf, hk, h0, h1, if_true]
    rcases hcase with hc | hc | ⟨e, he, hei⟩
    · simp [hc]
    · cases hfst : (g.typeOf i0).castList <;> simp [hc, hfst]
    · cases hsnd : (g.typeOf i1).castList <;> simp [he, hei, hsnd]
  · decide

theorem C2_add_tie_break_witness :
    ReplaceAddWithConcatStep exFloatG 0 = some exFloatG :=
  C2_add_tie_break.1 exFloatG 0 addN 1 2 (by decide) (by decide) (by decide) (by decide)
    (Or.inr (Or.inr ⟨JitType.FloatType, by decide, by decide⟩))

/-! ## C3: the dead guard of the indexed-put pass -/

/-- C3: the guard `(!lc_node->inputs().size()) == 1` evaluates to `false`
for every input-list size that can reach it (the preceding
`lc_node->input(0)` access already requires at least one input), so its
`continue` branch is unreachable and removing the check does not change
the outcome of the pass on any node of any graph. -/
theorem C3_dead_guard :
    (∀ sz, 0 < sz → indexPutGuard sz = false) ∧
    (∀ g nid, ReplaceIndexPutStep g nid = ReplaceIndexPutStepNoGuard g nid) := by
  have hguard : ∀ sz, 0 < sz → indexPutGuard sz = false := by
    intro sz hsz
    cases sz with
    | zero => omega
    | succ k => rfl
  refine ⟨hguard, ?_⟩
  intro g nid
  cases hf : g.findNode nid with
  | none => simp only [ReplaceIndexPutStep, ReplaceIndexPutStepNoGuard, hf]
  | some n =>
    by_cases hk : n.kind = NodeKind.aten_index_put_
    · cases h1 : n.inputs.get? 1 with
      | none =>
        simp only [ReplaceIndexPutStep, ReplaceIndexPutStepNoGuard, hf, if_pos hk, h1]
      | some idx =>
        cases h0 : (g.producerInputs idx).get? 0 with
        | none =>
          simp only [ReplaceIndexPutStep, ReplaceIndexPutStepNoGuard, hf, if_pos hk, h1, h0]
        | some mask =>
          have hne : g.producerInputs idx ≠ [] := by
            intro he
            rw [he] at h0
            exact Option.noConfusion h0
          have hlen : indexPutGuard (g.producerInputs idx).length = false :=
            hguard _ (List.length_pos.mpr hne)
          simp only [ReplaceIndexPutStep, ReplaceIndexPutStepNoGuard, hf, if_pos hk, h1, h0,
            hlen, Bool.false_eq_true, if_false]
    · simp only [ReplaceIndexPutStep, ReplaceIndexPutStepNoGuard, hf, if_neg hk]

theorem C3_dead_guard_witness :
    indexPutGuard 3 = false ∧
    ReplaceIndexPutStep exPutIntG 31 = ReplaceIndexPutStepNoGuard exPutIntG 31 :=
  ⟨C3_dead_guard.1 3 (by decide), C3_dead_guard.2 exPutIntG 31⟩

/-! ## C4: the fusibility pattern of the ListUnpack-fusion pass -/

/-- C4: a trigger-kind node is recognised as fusible iff it has exactly one
output, that output has exactly one use, and the consumer of that use is a
`prim::ListUnpack` node; when the pattern does not match, the pass leaves
the node unchanged. -/
theorem C4_fusible_iff :
    ∀ g nid n, g.findNode nid = some n → n.kind ∈ fuseTriggerKinds →
      (((FindFusibleListUnpack g n).isSome = true) ↔
        ∃ v, n.outputs = [v] ∧ ∃ m off,
          g.usesOf v = [{ user := some m, offset := off }] ∧
          m.kind = NodeKind.prim_ListUnpack) ∧
      (FindFusibleListUnpack g n = none → FuseWithListUnpackStep g nid = g) := by
  intro g nid n hf htrig
  constructor
  · cases hout : n.outputs with
    | nil =>
      simp only [FindFusibleListUnpack, hout, Option.isSome_none, Bool.false_eq_true, false_iff]
      rintro ⟨v, hv, -⟩
      exact List.noConfusion hv
    | cons v rest =>
      cases rest with
      | cons w ws =>
        simp only [FindFusibleListUnpack, hout, Option.isSome_none, Bool.false_eq_true, false_iff]
        rintro ⟨v', hv', -⟩
        simp at hv'
      | nil =>
        cases hu : g.usesOf v with
        | nil =>
          simp only [FindFusibleListUnpack, hout, hu, Option.isSome_none, Bool.false_eq_true,
            false_iff]
          rintro ⟨v', hv', m, off, huse, -⟩
          have hvv : v = v' := by simpa using hv'
          rw [← hvv, hu] at huse
          exact List.noConfusion huse
        | cons u us =>
          cases us with
          | cons u2 us2 =>
            simp only [FindFusibleListUnpack, hout, hu, Option.isSome_none, Bool.false_eq_true,
              false_iff]
            rintro ⟨v', hv', m, off, huse, -⟩
            have hvv : v = v' := by simpa using hv'
            rw [← hvv, hu] at huse
            simp at huse
          | nil =>
            obtain ⟨user, off⟩ := u
            cases user with
            | none =>
              simp only [FindFusibleListUnpack, hout, hu, Option.isSome_none,
                Bool.false_eq_true, false_iff]
              rintro ⟨v', hv', m, off', huse, -⟩
              have hvv : v = v' := by simpa using hv'
              rw [← hvv, hu] at huse
              simp at huse
            | some m =>
              by_cases hkind : m.kind = NodeKind.prim_ListUnpack
              · simp only [FindFusibleListUnpack, hout, hu, hkind, if_true, Option.isSome_some,
                  true_iff]
                exact ⟨v, rfl, m, off, by rw [hu], hkind⟩
              · simp only [FindFusibleListUnpack, hout, hu, if_neg hkind, Option.isSome_none,
                  Bool.false_eq_true, false_iff]
                rintro ⟨v', hv', m', off', huse, hk'⟩
                have hvv : v = v' := by simpa using hv'
                rw [← hvv, hu] at huse
                have hmm : m = m' ∧ off = off' := by simpa using huse
                exact hkind (hmm.1 ▸ hk')
  · intro hnone
    simp only [FuseWithListUnpackStep, hf, if_pos htrig, FuseWithListUnpackNode, hnone]

theorem C4_fusible_iff_witness :
    FuseWithListUnpackStep exSplitMultiG 20 = exSplitMultiG :=
  (C4_fusible_iff exSplitMultiG 20 splitN (by decide) (by decide)).2 (by decide)

/-! ## C9: failed matches leave the indexed-put node unchanged -/

/-- C9: for an `aten::index_put_` node whose mask fails the boolean-tensor
test (not a tensor type, scalar kind absent, or scalar kind not `Bool`),
or whose value input is not a tensor type of known rank, the pass leaves
the node and the whole graph unchanged: the step returns the input graph,
so no replacement node and no partial rewrite appears. -/
theorem C9_no_partial_rewrite :
    ∀ g nid n idx mask, g.findNode nid = some n →
      n.kind = NodeKind.aten_index_put_ →
      n.inputs.get? 1 = some idx →
      (g.producerInputs idx).get? 0 = some mask →
      ((maskIsBool (g.typeOf mask) = false → ReplaceIndexPutStep g nid = some g) ∧
       (∀ val, n.inputs.get? 2 = some val →
         ((g.typeOf val).castTensor).elim True (fun p => p.2 = none) →
         ReplaceIndexPutStep g nid = some g)) := by
  intro g nid n idx mask hf hk h1 h0
  have hne : g.producerInputs idx ≠ [] := by
    intro he
    rw [he] at h0
    exact Option.noConfusion h0
  have hlen : indexPutGuard (g.producerInputs idx).length = false := by
    have hpos : 0 < (g.producerInputs idx).length := List.length_pos.mpr hne
    cases hl : (g.producerInputs idx).length with
    | zero => omega
    | succ k => rfl
  constructor
  · intro hmask
    simp only [ReplaceIndexPutStep, hf, if_pos hk, h1, h0, hmask, Bool.not_false, if_true]
  · intro val h2 hrank
    by_cases hmask : maskIsBool (g.typeOf mask) = false
    · simp only [ReplaceIndexPutStep, hf, if_pos hk, h1, h0, hmask, Bool.not_false, if_true]
    · have hmaskT : maskIsBool (g.typeOf mask) = true := by
        cases hb : maskIsBool (g.typeOf mask) with
        | false => exact absurd hb hmask
        | true => rfl
      cases hct : (g.typeOf val).castTensor with
      | none =>
        simp only [ReplaceIndexPutStep, hf, if_pos hk, h1, h0, hmaskT, Bool.not_true,
          Bool.false_eq_true, if_false, hlen, h2, hct]
      | some p =>
        obtain ⟨sv, rk⟩ := p
        rw [hct] at hrank
        have hrk : rk = none := hrank
        subst hrk
        simp only [ReplaceIndexPutStep, hf, if_pos hk, h1, h0, hmaskT, Bool.not_true,
          Bool.false_eq_true, if_false, hlen, h2, hct]

theorem C9_no_partial_rewrite_witness :
    ReplaceIndexPutStep exPutIntG 31 = some exPutIntG :=
  (C9_no_partial_rewrite exPutIntG 31 putN 1 5 (by decide) (by decide) (by decide)
    (by decide)).1 (by decide)

/-! ## C10: the unguarded `lc_node->input(0)` access -/

/-- C10: the indexed-put pass reads the first input of the producer of the
node's indices-list input without checking that the producer has any
inputs; when that producer has zero inputs the access is out of bounds and
the step is undefined (`none` in this total embedding, an out-of-range
throw in the C++ IR).  No guard in the pass establishes the precondition. -/
theorem C10_unguarded_producer_access :
    ∀ g nid n idx, g.findNode nid = some n →
      n.kind = NodeKind.aten_index_put_ →
      n.inputs.get? 1 = some idx →
      g.producerInputs idx = [] →
      ReplaceIndexPutStep g nid = none := by
  intro g nid n idx hf hk h1 hemp
  simp only [ReplaceIndexPutStep, hf, if_pos hk, h1, hemp, List.get?]

theorem C10_unguarded_producer_access_witness :
    ReplaceIndexPutStep exPutCrashG 31 = none :=
  C10_unguarded_producer_access exPutCrashG 31 putN 1 (by decide) (by decide) (by decide)
    (by decide)

/-! ## List-surgery lemmas for the rewrite-equation theorems -/

theorem findNodeL_eq (pre : List Node) (n : Node) (post : List Node)
    (hpre : ∀ m ∈ pre, m.id ≠ n.id) :
    findNodeL (pre ++ n :: post) n.id = some n := by
  induction pre with
  | nil => simp [findNodeL]
  | cons x rest ih =>
    rw [List.cons_append, findNodeL, if_neg (hpre x (List.mem_cons_self x rest))]
    exact ih (fun m hm => hpre m (List.mem_cons_of_mem x hm))

theorem insertBeforeL_eq (pre : List Node) (n : Node) (post : List Node) (m : Node)
    (hpre : ∀ m' ∈ pre, m'.id ≠ n.id) :
    insertBeforeL (pre ++ n :: post) n.id m = pre ++ m :: n :: post := by
  induction pre with
  | nil => simp [insertBeforeL]
  | cons x rest ih =>
    rw [List.cons_append, insertBeforeL, if_neg (hpre x (List.mem_cons_self x rest)),
      ih (fun m' hm => hpre m' (List.mem_cons_of_mem x hm)), List.cons_append]

theorem removeNodeL_append (A B : List Node) (nid : Nat) :
    removeNodeL (A ++ B) nid = removeNodeL A nid ++ removeNodeL B nid := by
  induction A with
  | nil => simp [removeNodeL]
  | cons x rest ih =>
    by_cases hx : x.id = nid
    · rw [List.cons_append, removeNodeL, if_pos hx, ih, removeNodeL, if_pos hx]
    · rw [List.cons_append, removeNodeL, if_neg hx, ih, removeNodeL, if_neg hx,
        List.cons_append]

theorem removeNodeL_id (A : List Node) (nid : Nat) (h : ∀ m ∈ A, m.id ≠ nid) :
    removeNodeL A nid = A := by
  induction A with
  | nil => rfl
  | cons x rest ih =>
    rw [removeNodeL, if_neg (h x (List.mem_cons_self x rest))]
    rw [ih (fun m hm => h m (List.mem_cons_of_mem x hm))]

theorem setTypes_append (ts : List (Nat × JitType)) (v : Nat) (t : JitType)
    (h : ∀ p ∈ ts, p.1 ≠ v) : setTypes ts v t = ts ++ [(v, t)] := by
  induction ts with
  | nil => rfl
  | cons p rest ih =>
    rw [setTypes, if_neg (h p (List.mem_cons_self p rest)),
      ih (fun q hq => h q (List.mem_cons_of_mem p hq)), List.cons_append]

theorem substInputs_id (m : Node) (a b : Nat) : (m.substInputs a b).id = m.id := rfl

theorem updateFn_ne (nid : Nat) (f : Node → Node) (m : Node) (h : m.id ≠ nid) :
    updateFn nid f m = m := by
  rw [updateFn, if_neg h]

theorem updateFn_eq (nid : Nat) (f : Node → Node) (m : Node) (h : m.id = nid) :
    updateFn nid f m = f m := by
  rw [updateFn, if_pos h]

theorem removeNodeL_cons_clear (x : Node) (rest : List Node) (nid : Nat) (h : x.id = nid) :
    removeNodeL ({ id := x.id,
                   kind := x.kind,
                   inputs := ([] : List Nat),
                   outputs := x.outputs,
                   attrs := x.attrs } :: rest) nid = removeNodeL rest nid := by
  rw [removeNodeL]
  exact if_pos h

theorem map_updateFn_ne (L : List Node) (nid : Nat) (f : Node → Node)
    (h : ∀ m ∈ L, m.id ≠ nid) : L.map (updateFn nid f) = L := by
  induction L with
  | nil => rfl
  | cons x rest ih =>
    rw [List.map_cons, updateFn_ne _ _ _ (h x (List.mem_cons_self x rest)),
      ih (fun m hm => h m (List.mem_cons_of_mem x hm))]

/-! ## C7: the list-add rewrite postconditions -/

/-- C7: when an `aten::add` of two lists with `Int` element type (of input
0) is rewritten, an `onnx::Concat` node with attribute `axis = 0`, the two
list values as inputs and one fresh output takes the position directly
before the add node; the new output's type is set to
`fromNumberType Int`; every use of the add's output `o` (in node inputs
and in the graph returns) now carries the concat output; and the add node
is destroyed, its output's type entry removed. -/
theorem C7_add_rewrite :
    ∀ g pre post n i0 i1 o elem e1,
      g.nodes = pre ++ n :: post →
      (∀ m ∈ pre, m.id ≠ n.id) →
      (∀ m ∈ post, m.id ≠ n.id) →
      n.kind = NodeKind.aten_add →
      n.inputs.get? 0 = some i0 →
      n.inputs.get? 1 = some i1 →
      (g.typeOf i0).castList = some elem →
      elem.isInt = true →
      (g.typeOf i1).castList = some e1 →
      n.outputs = [o] →
      n.id < g.fresh →
      o < g.fresh →
      (∀ p ∈ g.types, p.1 < g.fresh) →
      ReplaceAddWithConcatStep g n.id =
        some { inputs := g.inputs,
               nodes :=
                 pre.map (fun m => m.substInputs o (g.fresh + 1)) ++
                 Node.substInputs
                   { id := g.fresh, kind := NodeKind.onnx_Concat, inputs := [i0, i1],
                     outputs := [g.fresh + 1], attrs := [("axis", AttrValue.ival 0)] }
                   o (g.fresh + 1) ::
                 post.map (fun m => m.substInputs o (g.fresh + 1)),
               rets := g.rets.map (substValue o (g.fresh + 1)),
               types := removeTypes g.types [o] ++ [(g.fresh + 1, fromNumberType elem)],
               fresh := g.fresh + 2 } := by
  intro g pre post n i0 i1 o elem e1 hnodes hpre hpost hkind h0 h1 hcl0 hisInt hcl1 hout
    hnfr hofr hty
  have hfind : g.findNode n.id = some n := by
    rw [Graph.findNode, hnodes]
    exact findNodeL_eq pre n post hpre
  simp only [ReplaceAddWithConcatStep, hfind, if_pos hkind, h0, h1, hcl0, hcl1, hisInt,
    if_true, hout, Graph.destroyNode, Graph.updateNode, Graph.replaceValue, Graph.setType,
    Graph.insertBefore, Option.some.injEq]
  have hins : insertBeforeL g.nodes n.id
      { id := g.fresh, kind := NodeKind.onnx_Concat, inputs := [i0, i1],
        outputs := [g.fresh + 1], attrs := [("axis", AttrValue.ival 0)] } =
      pre ++ ({ id := g.fresh, kind := NodeKind.onnx_Concat, inputs := [i0, i1],
                outputs := [g.fresh + 1],
                attrs := [("axis", AttrValue.ival 0)] } : Node) :: n :: post := by
    rw [hnodes]
    exact insertBeforeL_eq pre n post _ hpre
  rw [hins]
  have hset : setTypes g.types (g.fresh + 1) (fromNumberType elem) =
      g.types ++ [(g.fresh + 1, fromNumberType elem)] :=
    setTypes_append _ _ _ (fun p hp => by have := hty p hp; omega)
  rw [hset]
  have hpre' : ∀ m ∈ pre.map (fun m => m.substInputs o (g.fresh + 1)), m.id ≠ n.id := by
    intro m hm
    obtain ⟨m0, hm0, rfl⟩ := List.mem_map.mp hm
    exact hpre m0 hm0
  have hpost' : ∀ m ∈ post.map (fun m => m.substInputs o (g.fresh + 1)), m.id ≠ n.id := by
    intro m hm
    obtain ⟨m0, hm0, rfl⟩ := List.mem_map.mp hm
    exact hpost m0 hm0
  have hCne : (Node.substInputs
      { id := g.fresh, kind := NodeKind.onnx_Concat, inputs := [i0, i1],
        outputs := [g.fresh + 1], attrs := [("axis", AttrValue.ival 0)] }
      o (g.fresh + 1)).id ≠ n.id := by
    show g.fresh ≠ n.id
    omega
  refine Graph.mk.injEq .. ▸ ⟨rfl, ?_, rfl, ?_, rfl⟩
  · -- the node list
    rw [List.map_append, List.map_cons, List.map_cons]
    rw [List.map_append, List.map_cons, List.map_cons]
    rw [map_updateFn_ne _ _ _ hpre', map_updateFn_ne _ _ _ hpost']
    rw [updateFn_ne _ _ _ hCne]
    rw [updateFn_eq _ _ _ (substInputs_id n o (g.fresh + 1))]
    rw [removeNodeL_append, removeNodeL_id _ _ hpre']
    rw [removeNodeL, if_neg hCne]
    rw [removeNodeL_cons_clear _ _ _ (substInputs_id n o (g.fresh + 1))]
    rw [removeNodeL_id _ _ hpost']
  · -- the type map
    rw [removeTypes, List.filter_append, ← removeTypes, ← removeTypes]
    congr 1
    rw [removeTypes, List.filter_cons, List.filter_nil]
    have hdec : decide ((g.fresh + 1, fromNumberType elem).1 ∉ [o]) = true := by
      simp only [List.mem_singleton, decide_eq_true_eq]
      omega
    rw [hdec, if_pos rfl]

theorem C7_add_rewrite_witness :
    ReplaceAddWithConcatStep exAddG 0 = some exAddH :=
  C7_add_rewrite exAddG [] [] addN 1 2 3 JitType.IntType JitType.IntType rfl
    (by simp) (by simp) rfl rfl rfl (by decide) (by decide) (by decide) rfl
    (by decide) (by decide) (by decide)

/-! ## C6: the indexed-put rewrite postconditions -/

/-- C6: for an `aten::index_put_` node whose mask (the first input of the
producer of its indices-list input) is a `Bool` tensor and whose value has
a tensor type of known rank `r`, the pass creates an `aten::masked_fill`
node when `r = 0` and an `aten::masked_scatter` node otherwise; the
replacement has the inputs `(dest, mask, value)` and one fresh output,
takes the position directly before the original node, every use of the
original output now carries the new output, and the original node is
removed (its inputs having been cleared first) together with its output's
type entry. -/
theorem C6_index_put_rewrite :
    ∀ g pre post n idx mask val dest o sv r,
      g.nodes = pre ++ n :: post →
      (∀ m ∈ pre, m.id ≠ n.id) →
      (∀ m ∈ post, m.id ≠ n.id) →
      n.kind = NodeKind.aten_index_put_ →
      n.inputs.get? 1 = some idx →
      (g.producerInputs idx).get? 0 = some mask →
      maskIsBool (g.typeOf mask) = true →
      n.inputs.get? 2 = some val →
      (g.typeOf val).castTensor = some (sv, some r) →
      n.inputs.get? 0 = some dest →
      n.outputs = [o] →
      n.id < g.fresh →
      ReplaceIndexPutStep g n.id =
        some { inputs := g.inputs,
               nodes :=
                 pre.map (fun m => m.substInputs o (g.fresh + 1)) ++
                 Node.substInputs
                   { id := g.fresh,
                     kind := if r = 0 then NodeKind.aten_masked_fill
                             else NodeKind.aten_masked_scatter,
                     inputs := [dest, mask, val], outputs := [g.fresh + 1], attrs := [] }
                   o (g.fresh + 1) ::
                 post.map (fun m => m.substInputs o (g.fresh + 1)),
               rets := g.rets.map (substValue o (g.fresh + 1)),
               types := removeTypes g.types [o],
               fresh := g.fresh + 2 } := by
  intro g pre post n idx mask val dest o sv r hnodes hpre hpost hkind hidx hmaskin hmask
    hval hct hdest hout hnfr
  have hfind : g.findNode n.id = some n := by
    rw [Graph.findNode, hnodes]
    exact findNodeL_eq pre n post hpre
  have hne : g.producerInputs idx ≠ [] := by
    intro he
    rw [he] at hmaskin
    exact Option.noConfusion hmaskin
  have hlen : indexPutGuard (g.producerInputs idx).length = false := by
    have hpos : 0 < (g.producerInputs idx).length := List.length_pos.mpr hne
    cases hl : (g.producerInputs idx).length with
    | zero => omega
    | succ k => rfl
  simp only [ReplaceIndexPutStep, hfind, if_pos hkind, hidx, hmaskin, hmask, Bool.not_true,
    Bool.false_eq_true, if_false, hlen, hval, hct, hdest, hout, Graph.destroyNode,
    Graph.updateNode, Graph.replaceValue, Graph.insertBefore, Option.some.injEq]
  have hins : insertBeforeL g.nodes n.id
      { id := g.fresh,
        kind := if r = 0 then NodeKind.aten_masked_fill else NodeKind.aten_masked_scatter,
        inputs := [dest, mask, val], outputs := [g.fresh + 1], attrs := [] } =
      pre ++ ({ id := g.fresh,
                kind := if r = 0 then NodeKind.aten_masked_fill
                        else NodeKind.aten_masked_scatter,
                inputs := [dest, mask, val], outputs := [g.fresh + 1],
                attrs := [] } : Node) :: n :: post := by
    rw [hnodes]
    exact insertBeforeL_eq pre n post _ hpre
  rw [hins]
  have hpre' : ∀ m ∈ pre.map (fun m => m.substInputs o (g.fresh + 1)), m.id ≠ n.id := by
    intro m hm
    obtain ⟨m0, hm0, rfl⟩ := List.mem_map.mp hm
    exact hpre m0 hm0
  have hpost' : ∀ m ∈ post.map (fun m => m.substInputs o (g.fresh + 1)), m.id ≠ n.id := by
    intro m hm
    obtain ⟨m0, hm0, rfl⟩ := List.mem_map.mp hm
    exact hpost m0 hm0
  have hCne : (Node.substInputs
      { id := g.fresh,
        kind := if r = 0 then NodeKind.aten_masked_fill else NodeKind.aten_masked_scatter,
        inputs := [dest, mask, val], outputs := [g.fresh + 1], attrs := [] }
      o (g.fresh + 1)).id ≠ n.id := by
    show g.fresh ≠ n.id
    omega
  refine Graph.mk.injEq .. ▸ ⟨rfl, ?_, rfl, rfl, rfl⟩
  rw [List.map_append, List.map_cons, List.map_cons]
  rw [List.map_append, List.map_cons, List.map_cons]
  rw [map_updateFn_ne _ _ _ hpre', map_updateFn_ne _ _ _ hpost']
  rw [updateFn_ne _ _ _ hCne]
  rw [updateFn_eq _ _ _ (substInputs_id n o (g.fresh + 1))]
  rw [removeNodeL_append, removeNodeL_id _ _ hpre']
  rw [removeNodeL, if_neg hCne]
  rw [removeNodeL_cons_clear _ _ _ (substInputs_id n o (g.fresh + 1))]
  rw [removeNodeL_id _ _ hpost']

theorem C6_index_put_rewrite_witness :
    ReplaceIndexPutStep exPutFillG 31 = some exPutFillH :=
  C6_index_put_rewrite exPutFillG [lcN] [] putN 1 5 2 0 4 (some ScalarType.Float) 0 rfl
    (by decide) (by simp) rfl rfl (by decide) (by decide) rfl (by decide) rfl rfl (by decide)

/-! ## Lemmas about fresh-output addition and pairwise value replacement -/

theorem findNodeL_map (L : List Node) (nid : Nat) (φ : Node → Node)
    (hid : ∀ m, (φ m).id = m.id) :
    findNodeL (L.map φ) nid = (findNodeL L nid).map φ := by
  induction L with
  | nil => rfl
  | cons x rest ih =>
    by_cases hx : x.id = nid
    · rw [List.map_cons, findNodeL, if_pos ((hid x).trans hx), findNodeL, if_pos hx]
      rfl
    · rw [List.map_cons, findNodeL, if_neg (fun he => hx ((hid x) ▸ he)), findNodeL,
        if_neg hx, ih]

theorem lookupType_append_ne (ts : List (Nat × JitType)) (us : List (Nat × JitType))
    (v : Nat) (h : ∀ p ∈ us, p.1 ≠ v) :
    lookupType (ts ++ us) v = lookupType ts v := by
  induction ts with
  | nil =>
    rw [List.nil_append, lookupType]
    induction us with
    | nil => rfl
    | cons p rest ih =>
      obtain ⟨w, t⟩ := p
      rw [lookupType, if_neg (h (w, t) (List.mem_cons_self _ rest))]
      exact ih (fun q hq => h q (List.mem_cons_of_mem _ hq))
  | cons p rest ih =>
    obtain ⟨w, t⟩ := p
    rw [List.cons_append, lookupType, lookupType]
    by_cases hw : w = v
    · rw [if_pos hw, if_pos hw]
    · rw [if_neg hw, if_neg hw, ih]

/-- The `addOutput` / `copyMetadata` loop in closed form: it appends the
fresh value ids `range' g.fresh k` to the outputs of node `nid`, records
the copied types at the end of the type map, and advances the counter. -/
theorem addOutputsFrom_eq (srcs : List Nat) : ∀ (g : Graph) (nid : Nat),
    (∀ s ∈ srcs, s < g.fresh) →
    (∀ p ∈ g.types, p.1 < g.fresh) →
    addOutputsFrom g nid srcs =
      { g with
        nodes := g.nodes.map (updateFn nid (fun m =>
          { m with outputs := m.outputs ++ List.range' g.fresh srcs.length })),
        types := g.types ++ (List.range' g.fresh srcs.length).zip (srcs.map g.typeOf),
        fresh := g.fresh + srcs.length } := by
  induction srcs with
  | nil =>
    intro g nid _ _
    rw [addOutputsFrom]
    refine Graph.mk.injEq .. ▸ ⟨rfl, ?_, rfl, ?_, rfl⟩
    · symm
      refine (List.map_congr_left (fun m _ => ?_)).trans (List.map_id g.nodes)
      rw [updateFn]
      by_cases hm : m.id = nid
      · rw [if_pos hm]
        show ({ m with outputs := m.outputs ++ [] } : Node) = id m
        rw [List.append_nil]
        rfl
      · rw [if_neg hm]
        rfl
    · rw [List.length_nil, List.range'_zero, List.zip_nil_left, List.append_nil]
  | cons s rest ih =>
    intro g nid hs hty
    rw [addOutputsFrom]
    have hty1 : ∀ p ∈ g.types, p.1 ≠ g.fresh := fun p hp => by
      have := hty p hp
      omega
    rw [show ({ g.updateNode nid (fun m => { m with outputs := m.outputs ++ [g.fresh] }) with
      fresh := g.fresh + 1 } : Graph).setType g.fresh (g.typeOf s) =
      ({ inputs := g.inputs,
         nodes := g.nodes.map (updateFn nid (fun m =>
           { m with outputs := m.outputs ++ [g.fresh] })),
         rets := g.rets,
         types := g.types ++ [(g.fresh, g.typeOf s)],
         fresh := g.fresh + 1 } : Graph) from by
      rw [Graph.setType, Graph.updateNode]
      refine Graph.mk.injEq .. ▸ ⟨rfl, rfl, rfl, ?_, rfl⟩
      exact setTypes_append _ _ _ hty1]
    rw [ih _ nid (fun w hw => by
        show w < g.fresh + 1
        have := hs w (List.mem_cons_of_mem s hw)
        omega)
      (fun p hp => by
        show p.1 < g.fresh + 1
        rcases List.mem_append.mp hp with hp1 | hp2
        · have := hty p hp1
          omega
        · rcases List.mem_singleton.mp hp2 with rfl
          show g.fresh < g.fresh + 1
          omega)]
    refine Graph.mk.injEq .. ▸ ⟨rfl, ?_, rfl, ?_, ?_⟩
    · rw [List.map_map]
      refine List.map_congr_left (fun m _ => ?_)
      show updateFn nid _ (updateFn nid _ m) = _
      rw [updateFn, updateFn, updateFn]
      by_cases hm : m.id = nid
      · rw [if_pos hm, if_pos hm, if_pos hm]
        show ({ { m with outputs := m.outputs ++ [g.fresh] } with
          outputs := (m.outputs ++ [g.fresh]) ++ List.range' (g.fresh + 1) rest.length } : Node) =
          { m with outputs := m.outputs ++ List.range' g.fresh (s :: rest).length }
        rw [List.append_assoc, List.singleton_append, List.length_cons,
          List.range'_succ g.fresh rest.length 1]
      · rw [if_neg hm, if_neg hm, if_neg hm]
    · rw [List.append_assoc, List.singleton_append, List.length_cons,
        List.range'_succ g.fresh rest.length 1, List.map_cons, List.zip_cons_cons]
      congr 1
      congr 1
      congr 1
      refine List.map_congr_left (fun w hw => ?_)
      show (lookupType (g.types ++ [(g.fresh, g.typeOf s)]) w).getD defaultType = _
      rw [lookupType_append_ne _ _ _ (fun p hp => by
        rcases List.mem_singleton.mp hp with rfl
        have := hs w (List.mem_cons_of_mem s hw)
        omega)]
      rfl
    · show g.fresh + 1 + rest.length = g.fresh + (s :: rest).length
      rw [List.length_cons]
      omega

theorem findNodeL_some_id (L : List Node) (nid : Nat) (n : Node)
    (h : findNodeL L nid = some n) : n.id = nid := by
  induction L with
  | nil => exact Option.noConfusion h
  | cons x rest ih =>
    rw [findNodeL] at h
    by_cases hx : x.id = nid
    · rw [if_pos hx] at h
      cases h
      exact hx
    · rw [if_neg hx] at h
      exact ih h

theorem updateFn_preserves_id (nid : Nat) (f : Node → Node)
    (hf : ∀ m, (f m).id = m.id) (m : Node) : (updateFn nid f m).id = m.id := by
  rw [updateFn]
  by_cases hm : m.id = nid
  · rw [if_pos hm]
    exact hf m
  · rw [if_neg hm]

theorem substL_not_source (ps : List (Nat × Nat)) (v : Nat) (h : ∀ p ∈ ps, p.1 ≠ v) :
    substL ps v = v := by
  induction ps with
  | nil => rfl
  | cons p rest ih =>
    obtain ⟨a, b⟩ := p
    rw [substL, if_neg (fun he => h (a, b) (List.mem_cons_self _ rest) he.symm)]
    exact ih (fun q hq => h q (List.mem_cons_of_mem _ hq))

theorem substL_cons_comp (a b : Nat) (rest : List (Nat × Nat)) (v : Nat)
    (hb : ∀ p ∈ rest, p.1 ≠ b) :
    substL rest (substValue a b v) = substL ((a, b) :: rest) v := by
  rw [substValue, substL]
  by_cases hv : v = a
  · rw [if_pos hv, if_pos hv, substL_not_source rest b hb]
  · rw [if_neg hv, if_neg hv]

/-- The sequence of `replaceAllUsesWith` calls over a pair list, in closed
form, provided no later source coincides with an earlier target. -/
theorem replacePairs_eq (ps : List (Nat × Nat)) : ∀ g : Graph,
    (∀ p ∈ ps, ∀ q ∈ ps, q.1 ≠ p.2) →
    replacePairs g ps =
      { g with nodes := g.nodes.map (fun m => m.substInputsL ps),
               rets := g.rets.map (substL ps) } := by
  induction ps with
  | nil =>
    intro g _
    rw [replacePairs]
    refine Graph.mk.injEq .. ▸ ⟨rfl, ?_, ?_, rfl, rfl⟩
    · symm
      refine (List.map_congr_left (fun m _ => ?_)).trans (List.map_id g.nodes)
      show ({ m with inputs := m.inputs.map (substL []) } : Node) = id m
      rw [show m.inputs.map (substL []) = m.inputs from
        (List.map_congr_left (fun v _ => rfl)).trans (List.map_id m.inputs)]
      rfl
    · symm
      exact (List.map_congr_left (fun v _ => rfl)).trans (List.map_id g.rets)
  | cons p rest ih =>
    obtain ⟨a, b⟩ := p
    intro g h
    have hb : ∀ q ∈ rest, q.1 ≠ b :=
      fun q hq => h (a, b) (List.mem_cons_self _ rest) q (List.mem_cons_of_mem _ hq)
    rw [replacePairs]
    rw [ih (g.replaceValue a b)
      (fun p1 hp1 q1 hq1 =>
        h p1 (List.mem_cons_of_mem _ hp1) q1 (List.mem_cons_of_mem _ hq1))]
    rw [Graph.replaceValue]
    refine Graph.mk.injEq .. ▸ ⟨rfl, ?_, ?_, rfl, rfl⟩
    · rw [List.map_map]
      refine List.map_congr_left (fun m _ => ?_)
      show Node.substInputsL (m.substInputs a b) rest = m.substInputsL ((a, b) :: rest)
      rw [Node.substInputsL, Node.substInputs, Node.substInputsL]
      refine Node.mk.injEq .. ▸ ⟨rfl, rfl, ?_, rfl, rfl⟩
      show (m.inputs.map (substValue a b)).map (substL rest) = _
      rw [List.map_map]
      exact List.map_congr_left (fun v _ => substL_cons_comp a b rest v hb)
    · rw [List.map_map]
      exact List.map_congr_left (fun v _ => substL_cons_comp a b rest v hb)

/-! ## C5: the fusion rewrite postconditions -/

/-- C5: when a trigger node (identity `nid`) with sole `prim::ListUnpack`
consumer `u` (with `k` outputs) is fused, in the resulting graph: the
node carries the integer attribute `_outputs = k`; its old list output `v`
is gone and it has the `k` fresh outputs `range' g.fresh k`, whose types
are copied positionally from `u`'s outputs (the appended type entries);
`u`'s input edges are cleared but `u` stays in the graph with its outputs;
every use of `u`'s `i`-th output (in node inputs and graph returns) now
carries the node's `i`-th new output; and the type entry of `v` is
removed. -/
theorem C5_fusion_effects :
    ∀ g nid n u v,
      g.findNode nid = some n →
      n.kind ∈ fuseTriggerKinds →
      FindFusibleListUnpack g n = some u →
      n.outputs = [v] →
      u.id ≠ nid →
      (∀ w ∈ u.outputs, w < g.fresh) →
      (∀ p ∈ g.types, p.1 < g.fresh) →
      FuseWithListUnpackStep g nid =
        { inputs := g.inputs,
          nodes := g.nodes.map (fun m =>
            Node.substInputsL
              (updateFn nid (fun m' =>
                { m' with
                  attrs := setAttrL m'.attrs "_outputs"
                    (AttrValue.ival (Int.ofNat u.outputs.length)),
                  outputs := (m'.outputs ++ List.range' g.fresh u.outputs.length).drop 1 })
                (updateFn u.id (fun m' => { m' with inputs := ([] : List Nat) }) m))
              (u.outputs.zip (List.range' g.fresh u.outputs.length))),
          rets := g.rets.map (substL (u.outputs.zip (List.range' g.fresh u.outputs.length))),
          types := removeTypes
            (g.types ++ (List.range' g.fresh u.outputs.length).zip (u.outputs.map g.typeOf))
            [v],
          fresh := g.fresh + u.outputs.length } := by
  intro g nid n u v hfind htrig hfus hout huid hufr hty
  have hnid : n.id = nid := findNodeL_some_id g.nodes nid n hfind
  have hfindL : findNodeL g.nodes nid = some n := hfind
  have hnu : ¬ n.id = u.id := fun he => huid (he.symm.trans hnid)
  have hnu' : ¬ nid = u.id := fun he => huid he.symm
  simp only [FuseWithListUnpackStep, hfind, if_pos htrig]
  simp only [FuseWithListUnpackNode, hfind, hfus, hout]
  simp only [Node.setIntAttr, Graph.updateNode]
  rw [addOutputsFrom_eq u.outputs
    { inputs := g.inputs,
      nodes := g.nodes.map (updateFn nid (fun m =>
        { m with attrs := setAttrL m.attrs "_outputs" (AttrValue.ival (Int.ofNat u.outputs.length)) })),
      rets := g.rets, types := g.types, fresh := g.fresh }
    nid (fun s hs => hufr s hs) (fun p hp => hty p hp)]
  dsimp only
  simp only [Graph.findNode]
  rw [findNodeL_map _ nid
      (updateFn nid (fun m => { m with outputs := m.outputs.drop 1 }))
      (updateFn_preserves_id nid _ (fun m' => rfl)),
    findNodeL_map _ nid
      (updateFn u.id (fun m => { m with inputs := ([] : List Nat) }))
      (updateFn_preserves_id u.id _ (fun m' => rfl)),
    findNodeL_map _ nid
      (updateFn nid (fun m =>
        { m with outputs := m.outputs ++ List.range' g.fresh u.outputs.length }))
      (updateFn_preserves_id nid _ (fun m' => rfl)),
    findNodeL_map _ nid
      (updateFn nid (fun m =>
        { m with attrs := setAttrL m.attrs "_outputs" (AttrValue.ival (Int.ofNat u.outputs.length)) }))
      (updateFn_preserves_id nid _ (fun m' => rfl)),
    hfindL]
  dsimp only [Option.map]
  have houts2 :
      (updateFn nid (fun m => { m with outputs := m.outputs.drop 1 })
        (updateFn u.id (fun m => { m with inputs := ([] : List Nat) })
          (updateFn nid (fun m =>
            { m with outputs := m.outputs ++ List.range' g.fresh u.outputs.length })
            (updateFn nid (fun m =>
              { m with attrs := setAttrL m.attrs "_outputs" (AttrValue.ival (Int.ofNat u.outputs.length)) }) n)))).outputs =
      List.range' g.fresh u.outputs.length := by
    simp only [updateFn, hnid, hnu, hnu', eq_self_iff_true, if_true, if_false, ite_true,
      ite_false]
    rw [hout]
    rfl
  rw [houts2]
  rw [replacePairs_eq _ _ (fun p hp q hq => by
    have hp2 : p.2 ∈ List.range' g.fresh u.outputs.length := (List.of_mem_zip hp).2
    have hq1 : q.1 ∈ u.outputs := (List.of_mem_zip hq).1
    have h1 := (List.mem_range'_1.mp hp2).1
    have h2 := hufr q.1 hq1
    omega)]
  dsimp only
  refine Graph.mk.injEq .. ▸ ⟨rfl, ?_, rfl, rfl, rfl⟩
  rw [List.map_map, List.map_map, List.map_map, List.map_map]
  refine List.map_congr_left (fun m _ => ?_)
  dsimp only [Function.comp]
  by_cases hm : m.id = nid
  · have hmu : ¬ m.id = u.id := fun he => huid (he.symm.trans hm)
    simp only [updateFn, hm, hmu, hnu', eq_self_iff_true, if_true, if_false, ite_true,
      ite_false]
  · by_cases hmu : m.id = u.id
    · have hmn' : ¬ u.id = nid := huid
      simp only [updateFn, hm, hmu, hmn', eq_self_iff_true, if_true, if_false, ite_true,
        ite_false]
    · simp only [updateFn, hm, hmu, if_false, ite_false]

theorem C5_fusion_effects_witness :
    FuseWithListUnpackStep exSplitG 20 = exSplitH :=
  C5_fusion_effects exSplitG 20 splitN unpack3N 1 (by decide) (by decide) (by decide) rfl
    (by decide) (by decide) (by decide)

/-! ## Lemmas about producers and the pass-4 gadgets -/

theorem producerOfL_append (A B : List Node) (v : Nat) :
    producerOfL (A ++ B) v =
      match producerOfL A v with
      | some n => some n
      | none => producerOfL B v := by
  induction A with
  | nil => rw [List.nil_append, producerOfL]
  | cons x rest ih =>
    by_cases hx : v ∈ x.outputs
    · rw [List.cons_append, producerOfL, if_pos hx, producerOfL, if_pos hx]
    · rw [List.cons_append, producerOfL, if_neg hx, producerOfL, if_neg hx, ih]

theorem producerOfL_map_subst (L : List Node) (v a b : Nat) :
    producerOfL (L.map (fun m => m.substInputs a b)) v =
      (producerOfL L v).map (fun m => m.substInputs a b) := by
  induction L with
  | nil => rfl
  | cons x rest ih =>
    by_cases hx : v ∈ x.outputs
    · have hx' : v ∈ (x.substInputs a b).outputs := hx
      rw [List.map_cons, producerOfL, if_pos hx', producerOfL, if_pos hx]
      rfl
    · have hx' : v ∉ (x.substInputs a b).outputs := hx
      rw [List.map_cons, producerOfL, if_neg hx', producerOfL, if_neg hx, ih]

theorem gatherPairs_mem (outs : List (Nat × Nat)) : ∀ (fr : Nat),
    ∀ p ∈ gatherPairs fr outs, (∃ q ∈ outs, p.1 = q.2) ∧ fr + 3 ≤ p.2 := by
  induction outs with
  | nil => intro fr p hp; exact absurd hp (List.not_mem_nil p)
  | cons x rest ih =>
    obtain ⟨i, o⟩ := x
    intro fr p hp
    rw [gatherPairs] at hp
    rcases List.mem_cons.mp hp with rfl | hp2
    · exact ⟨⟨(i, o), List.mem_cons_self _ rest, rfl⟩, by omega⟩
    · obtain ⟨⟨q, hq, hq1⟩, hge⟩ := ih (fr + 4) p hp2
      exact ⟨⟨q, List.mem_cons_of_mem _ hq, hq1⟩, by omega⟩

/-- The pass-4 loop in closed form: for each enumerated output it inserts a
constant/gather pair directly before the `ListUnpack` node and redirects
that output's uses to the corresponding gather output; the node itself,
its input edge, and the type map are untouched. -/
theorem fuseListUnpackLoop_eq (outs : List (Nat × Nat)) :
    ∀ (g : Graph) (pre post : List Node) (u : Node) (v : Nat) (elem : JitType),
      g.nodes = pre ++ u :: post →
      (∀ m ∈ pre, m.id ≠ u.id) →
      u.inputs = [v] →
      g.producerKind v ≠ NodeKind.prim_ListConstruct →
      (g.typeOf v).castList = some elem →
      elem.isInt = true →
      u.id < g.fresh →
      v < g.fresh →
      v ∉ u.outputs →
      (∀ p ∈ outs, p.2 < g.fresh ∧ p.2 ≠ v) →
      fuseListUnpackLoop g u.id outs =
        { inputs := g.inputs,
          nodes := pre.map (fun m => m.substInputsL (gatherPairs g.fresh outs)) ++
                   (gatherGadgets v g.fresh outs ++
                    u :: post.map (fun m => m.substInputsL (gatherPairs g.fresh outs))),
          rets := g.rets.map (substL (gatherPairs g.fresh outs)),
          types := g.types,
          fresh := g.fresh + 4 * outs.length } := by
  induction outs with
  | nil =>
    intro g pre post u v elem hg hpre hin hprod hcl hint huf hvf hvout houts
    rw [fuseListUnpackLoop]
    have hF : ∀ (L : List Node),
        L.map (fun m => m.substInputsL (gatherPairs g.fresh [])) = L := by
      intro L
      refine (List.map_congr_left (fun m _ => ?_)).trans (List.map_id L)
      show ({ m with inputs := m.inputs.map (substL (gatherPairs g.fresh [])) } : Node) = id m
      rw [show m.inputs.map (substL (gatherPairs g.fresh [])) = m.inputs from
        (List.map_congr_left (fun w _ => rfl)).trans (List.map_id m.inputs)]
      rfl
    show ({ inputs := g.inputs, nodes := g.nodes, rets := g.rets, types := g.types,
            fresh := g.fresh } : Graph) = _
    refine Graph.mk.injEq .. ▸ ⟨rfl, ?_, ?_, rfl, rfl⟩
    · rw [hg, hF pre, hF post, gatherGadgets, List.nil_append]
    · symm
      exact (List.map_congr_left (fun w _ => rfl)).trans (List.map_id g.rets)
  | cons x rest ih =>
    obtain ⟨i, o⟩ := x
    intro g pre post u v elem hg hpre hin hprod hcl hint huf hvf hvout houts
    have ho : o < g.fresh ∧ o ≠ v := houts (i, o) (List.mem_cons_self _ rest)
    have hfindL : findNodeL g.nodes u.id = some u := by
      rw [hg]
      exact findNodeL_eq pre u post hpre
    have hfind : g.findNode u.id = some u := hfindL
    have hguard : listUnpackGuard g u = true := by
      rw [listUnpackGuard, hin]
      simp [List.get?, hcl, hint, beq_eq_false_iff_ne.mpr hprod]
    rw [fuseListUnpackLoop]
    simp only [hfind, if_pos hguard, hin, List.get?]
    dsimp only [Graph.insertBefore, Graph.replaceValue]
    simp only [show g.fresh + 2 + 1 = g.fresh + 3 from rfl,
      show g.fresh + 2 + 2 = g.fresh + 4 from rfl]
    rw [show insertBeforeL g.nodes u.id
        { id := g.fresh, kind := NodeKind.onnx_Constant, inputs := [],
          outputs := [g.fresh + 1], attrs := [("value", AttrValue.tval (Int.ofNat i))] } =
        pre ++ ({ id := g.fresh, kind := NodeKind.onnx_Constant, inputs := [],
                  outputs := [g.fresh + 1],
                  attrs := [("value", AttrValue.tval (Int.ofNat i))] } : Node) :: u :: post
      from by
        rw [hg]
        exact insertBeforeL_eq pre u post _ hpre]
    rw [show insertBeforeL
        (pre ++ ({ id := g.fresh, kind := NodeKind.onnx_Constant, inputs := [],
                   outputs := [g.fresh + 1],
                   attrs := [("value", AttrValue.tval (Int.ofNat i))] } : Node) :: u :: post)
        u.id
        { id := g.fresh + 2, kind := NodeKind.onnx_Gather, inputs := [v, g.fresh + 1],
          outputs := [g.fresh + 3], attrs := [] } =
        pre ++ ({ id := g.fresh, kind := NodeKind.onnx_Constant, inputs := [],
                  outputs := [g.fresh + 1],
                  attrs := [("value", AttrValue.tval (Int.ofNat i))] } : Node) ::
          ({ id := g.fresh + 2, kind := NodeKind.onnx_Gather, inputs := [v, g.fresh + 1],
             outputs := [g.fresh + 3], attrs := [] } : Node) :: u :: post
      from by
        have h2 := insertBeforeL_eq
          (pre ++ [{ id := g.fresh, kind := NodeKind.onnx_Constant, inputs := [],
                     outputs := [g.fresh + 1],
                     attrs := [("value", AttrValue.tval (Int.ofNat i))] }]) u post
          { id := g.fresh + 2, kind := NodeKind.onnx_Gather, inputs := [v, g.fresh + 1],
            outputs := [g.fresh + 3], attrs := [] }
          (by
            intro m hm
            rcases List.mem_append.mp hm with hm1 | hm2
            · exact hpre m hm1
            · rcases List.mem_singleton.mp hm2 with rfl
              show g.fresh ≠ u.id
              omega)
        simp only [List.append_assoc, List.singleton_append] at h2
        exact h2]
    simp only [List.map_append, List.map_cons]
    rw [show Node.substInputs
        { id := g.fresh, kind := NodeKind.onnx_Constant, inputs := [],
          outputs := [g.fresh + 1], attrs := [("value", AttrValue.tval (Int.ofNat i))] }
        o (g.fresh + 3) =
        { id := g.fresh, kind := NodeKind.onnx_Constant, inputs := [],
          outputs := [g.fresh + 1], attrs := [("value", AttrValue.tval (Int.ofNat i))] }
      from rfl]
    rw [show Node.substInputs
        { id := g.fresh + 2, kind := NodeKind.onnx_Gather, inputs := [v, g.fresh + 1],
          outputs := [g.fresh + 3], attrs := [] } o (g.fresh + 3) =
        { id := g.fresh + 2, kind := NodeKind.onnx_Gather, inputs := [v, g.fresh + 1],
          outputs := [g.fresh + 3], attrs := [] }
      from by
        rw [Node.substInputs]
        simp only [List.map_cons, List.map_nil, substValue]
        rw [if_neg (fun he => ho.2 he.symm), if_neg (fun he : g.fresh + 1 = o => by omega)]]
    rw [show Node.substInputs u o (g.fresh + 3) = u from by
      rw [Node.substInputs, hin]
      simp only [List.map_cons, List.map_nil, substValue]
      rw [if_neg (fun he => ho.2 he.symm), ← hin]]
    have hCout : v ∉ ({ id := g.fresh,
                        kind := NodeKind.onnx_Constant,
                        inputs := [],
                        outputs := [g.fresh + 1],
                        attrs := [("value", AttrValue.tval (Int.ofNat i))] } : Node).outputs := by
      intro hmem
      rcases List.mem_singleton.mp hmem with rfl
      omega
    have hGout : v ∉ ({ id := g.fresh + 2,
                        kind := NodeKind.onnx_Gather,
                        inputs := [v, g.fresh + 1],
                        outputs := [g.fresh + 3],
                        attrs := [] } : Node).outputs := by
      intro hmem
      rcases List.mem_singleton.mp hmem with rfl
      omega
    have hstab : Graph.producerKind
        { inputs := g.inputs,
          nodes := pre.map (fun m => m.substInputs o (g.fresh + 3)) ++
            ({ id := g.fresh, kind := NodeKind.onnx_Constant, inputs := [],
               outputs := [g.fresh + 1],
               attrs := [("value", AttrValue.tval (Int.ofNat i))] } : Node) ::
            ({ id := g.fresh + 2, kind := NodeKind.onnx_Gather, inputs := [v, g.fresh + 1],
               outputs := [g.fresh + 3], attrs := [] } : Node) :: u ::
            post.map (fun m => m.substInputs o (g.fresh + 3)),
          rets := g.rets.map (substValue o (g.fresh + 3)),
          types := g.types,
          fresh := g.fresh + 4 } v = g.producerKind v := by
      rw [Graph.producerKind, Graph.producerKind, Graph.producerOf, Graph.producerOf]
      dsimp only
      rw [hg]
      rw [producerOfL_append (pre.map (fun m => m.substInputs o (g.fresh + 3))),
        producerOfL_append pre, producerOfL_map_subst]
      cases hP : producerOfL pre v with
      | some m => rfl
      | none =>
        rw [producerOfL, if_neg hCout, producerOfL, if_neg hGout, producerOfL,
          if_neg hvout, producerOfL_map_subst, producerOfL, if_neg hvout]
        cases producerOfL post v <;> rfl
    rw [ih { inputs := g.inputs,
             nodes := pre.map (fun m => m.substInputs o (g.fresh + 3)) ++
               ({ id := g.fresh, kind := NodeKind.onnx_Constant, inputs := [],
                  outputs := [g.fresh + 1],
                  attrs := [("value", AttrValue.tval (Int.ofNat i))] } : Node) ::
               ({ id := g.fresh + 2, kind := NodeKind.onnx_Gather,
                  inputs := [v, g.fresh + 1], outputs := [g.fresh + 3],
                  attrs := [] } : Node) :: u ::
               post.map (fun m => m.substInputs o (g.fresh + 3)),
             rets := g.rets.map (substValue o (g.fresh + 3)),
             types := g.types,
             fresh := g.fresh + 4 }
      (pre.map (fun m => m.substInputs o (g.fresh + 3)) ++
        [{ id := g.fresh, kind := NodeKind.onnx_Constant, inputs := [],
           outputs := [g.fresh + 1], attrs := [("value", AttrValue.tval (Int.ofNat i))] },
         { id := g.fresh + 2, kind := NodeKind.onnx_Gather, inputs := [v, g.fresh + 1],
           outputs := [g.fresh + 3], attrs := [] }])
      (post.map (fun m => m.substInputs o (g.fresh + 3))) u v elem
      (by simp [List.append_assoc])
      (by
        intro m hm
        rcases List.mem_append.mp hm with hm1 | hm2
        · obtain ⟨m0, hm0, rfl⟩ := List.mem_map.mp hm1
          exact hpre m0 hm0
        · rcases List.mem_cons.mp hm2 with rfl | hm3
          · show g.fresh ≠ u.id
            omega
          · rcases List.mem_singleton.mp hm3 with rfl
            show g.fresh + 2 ≠ u.id
            omega)
      hin
      (by
        rw [hstab]
        exact hprod)
      hcl hint
      (by
        show u.id < g.fresh + 4
        omega)
      (by
        show v < g.fresh + 4
        omega)
      hvout
      (by
        intro p hp
        have := houts p (List.mem_cons_of_mem _ hp)
        exact ⟨by show p.2 < g.fresh + 4; omega, this.2⟩)]
    have hps : ∀ p ∈ gatherPairs (g.fresh + 4) rest, p.1 < g.fresh ∧ p.1 ≠ v := by
      intro p hp
      obtain ⟨⟨q, hq, hq1⟩, -⟩ := gatherPairs_mem rest (g.fresh + 4) p hp
      have := houts q (List.mem_cons_of_mem _ hq)
      exact ⟨hq1 ▸ this.1, hq1 ▸ this.2⟩
    have hcomp : ∀ (L : List Node),
        (L.map (fun m => m.substInputs o (g.fresh + 3))).map
          (fun m => m.substInputsL (gatherPairs (g.fresh + 4) rest)) =
        L.map (fun m => m.substInputsL ((o, g.fresh + 3) :: gatherPairs (g.fresh + 4) rest)) := by
      intro L
      rw [List.map_map]
      refine List.map_congr_left (fun m _ => ?_)
      show Node.substInputsL (m.substInputs o (g.fresh + 3)) _ = _
      rw [Node.substInputsL, Node.substInputs, Node.substInputsL]
      refine Node.mk.injEq .. ▸ ⟨rfl, rfl, ?_, rfl, rfl⟩
      show (m.inputs.map (substValue o (g.fresh + 3))).map
        (substL (gatherPairs (g.fresh + 4) rest)) = _
      rw [List.map_map]
      exact List.map_congr_left (fun w _ =>
        substL_cons_comp o (g.fresh + 3) _ w (fun p hp => by
          have := (hps p hp).1
          omega))
    refine Graph.mk.injEq .. ▸ ⟨rfl, ?_, ?_, rfl, ?_⟩
    · rw [gatherPairs, gatherGadgets]
      rw [List.map_append, hcomp pre, hcomp post, List.map_cons, List.map_cons,
        List.map_nil]
      rw [show Node.substInputsL
          { id := g.fresh, kind := NodeKind.onnx_Constant, inputs := [],
            outputs := [g.fresh + 1], attrs := [("value", AttrValue.tval (Int.ofNat i))] }
          (gatherPairs (g.fresh + 4) rest) =
          { id := g.fresh, kind := NodeKind.onnx_Constant, inputs := [],
            outputs := [g.fresh + 1], attrs := [("value", AttrValue.tval (Int.ofNat i))] }
        from rfl]
      rw [show Node.substInputsL
          { id := g.fresh + 2, kind := NodeKind.onnx_Gather, inputs := [v, g.fresh + 1],
            outputs := [g.fresh + 3], attrs := [] } (gatherPairs (g.fresh + 4) rest) =
          { id := g.fresh + 2, kind := NodeKind.onnx_Gather, inputs := [v, g.fresh + 1],
            outputs := [g.fresh + 3], attrs := [] }
        from by
          rw [Node.substInputsL]
          simp only [List.map_cons, List.map_nil]
          rw [substL_not_source _ _ (fun p hp => (hps p hp).2),
            substL_not_source _ _ (fun p hp => by
              have := (hps p hp).1
              omega)]]
      simp only [List.append_assoc, List.cons_append, List.nil_append]
    · rw [gatherPairs]
      rw [List.map_map]
      exact List.map_congr_left (fun w _ =>
        substL_cons_comp o (g.fresh + 3) _ w (fun p hp => by
          have := (hps p hp).1
          omega))
    · show g.fresh + 4 + 4 * rest.length = g.fresh + 4 * ((i, o) :: rest).length
      rw [List.length_cons]
      omega

theorem fuseListUnpackLoop_noop (outs : List (Nat × Nat)) :
    ∀ (g : Graph) (nid : Nat) (u : Node),
      g.findNode nid = some u → listUnpackGuard g u = false →
      fuseListUnpackLoop g nid outs = g := by
  induction outs with
  | nil => intro g nid u _ _; rfl
  | cons x rest ih =>
    obtain ⟨i, o⟩ := x
    intro g nid u hf hgu
    rw [fuseListUnpackLoop]
    simp only [hf, hgu, Bool.false_eq_true, if_false]
    exact ih g nid u hf hgu

/-! ## C8: the list-index-expansion rewrite -/

/-- C8: for a `prim::ListUnpack` node `u` whose sole input `v` has type
`ListType[IntType]` and whose producer is not a `prim::ListConstruct`, the
pass inserts, directly before `u` and in order, one `onnx::Constant`
(holding the scalar integer tensor `i`) and one `onnx::Gather` on
`(v, constant_i)` per output index `i`, redirects every use of `u`'s
`i`-th output to the corresponding gather output, and leaves `u` itself in
the graph, its input edge and the type map untouched; a `ListUnpack` whose
input is produced by a `ListConstruct` is left unchanged. -/
theorem C8_list_index_expansion :
    (∀ (g : Graph) (pre post : List Node) (u : Node) (v : Nat) (elem : JitType),
      g.nodes = pre ++ u :: post →
      (∀ m ∈ pre, m.id ≠ u.id) →
      u.kind = NodeKind.prim_ListUnpack →
      u.inputs = [v] →
      g.producerKind v ≠ NodeKind.prim_ListConstruct →
      (g.typeOf v).castList = some elem →
      elem.isInt = true →
      u.id < g.fresh →
      v < g.fresh →
      v ∉ u.outputs →
      (∀ w ∈ u.outputs, w < g.fresh) →
      fuseListUnpackStep g u.id =
        { inputs := g.inputs,
          nodes := pre.map (fun m => m.substInputsL (gatherPairs g.fresh u.outputs.enum)) ++
                   (gatherGadgets v g.fresh u.outputs.enum ++
                    u :: post.map (fun m =>
                      m.substInputsL (gatherPairs g.fresh u.outputs.enum))),
          rets := g.rets.map (substL (gatherPairs g.fresh u.outputs.enum)),
          types := g.types,
          fresh := g.fresh + 4 * u.outputs.length }) ∧
    (∀ (g : Graph) (nid : Nat) (u : Node) (v : Nat),
      g.findNode nid = some u →
      u.kind = NodeKind.prim_ListUnpack →
      u.inputs.get? 0 = some v →
      g.producerKind v = NodeKind.prim_ListConstruct →
      fuseListUnpackStep g nid = g) := by
  constructor
  · intro g pre post u v elem hg hpre hkind hin hprod hcl hint huf hvf hvout hofr
    have hfind : g.findNode u.id = some u := by
      rw [Graph.findNode, hg]
      exact findNodeL_eq pre u post hpre
    simp only [fuseListUnpackStep, hfind, if_pos hkind]
    rw [fuseListUnpackLoop_eq u.outputs.enum g pre post u v elem hg hpre hin hprod hcl hint
      huf hvf hvout (fun p hp => by
        have hsnd : p.2 ∈ u.outputs := by
          have := List.enum_map_snd u.outputs
          exact this ▸ List.mem_map_of_mem Prod.snd hp
        exact ⟨hofr p.2 hsnd, fun he => hvout (he ▸ hsnd)⟩)]
    rw [List.enum_length]
  · intro g nid u v hfind hkind hv0 hLC
    simp only [fuseListUnpackStep, hfind, if_pos hkind]
    refine fuseListUnpackLoop_noop _ g nid u hfind ?_
    rw [listUnpackGuard, hv0]
    dsimp only
    rw [hLC]
    simp only [beq_self_eq_true, Bool.not_true, Bool.false_and, Bool.and_false]

theorem C8_list_index_expansion_witness :
    fuseListUnpackStep exUnpackG 11 = exUnpackH :=
  C8_list_index_expansion.1 exUnpackG [sizeN] [] unpack2N 1 JitType.IntType rfl
    (by decide) (by decide) rfl (by decide) (by decide) (by decide) (by decide) (by decide)
    (by decide) (by decide)

end PreprocessOnnx
